import Mathlib

/-!
Shallow embedding of the streaming batch decoder of
`processor/stream/processor.go` (apm-server intake pipeline).

Pure Go functions are translated into Lean functions; the stateful
stream reader is explicit state passing; Go `error` values become an
inductive `Err` type.  Collaborators that live outside the provided
sources (the NDJSON stream decoder, the per-kind model decoders, the
metadata decoder and the `Result`/`InvalidInputError` types) are
modelled from the spec, as noted on each definition.
-/

namespace APMStream

/-- Go `error` values reachable in the stream processor, as an inductive
type.  `eof` is `io.EOF`; `jsonDecode` is `decoder.JSONDecodeError`;
`lineTooLong` is `decoder.ErrLineTooLong`; `decoderErr` is a
`modeldecoder.DecoderError` wrapper (with `Unwrap`); `invalidInput` is
`*stream.InvalidInputError` (fields TooLarge, Message, Document);
`wrapped` is `errors.Wrap(inner, msg)`; `generic` is any other error. -/
inductive Err where
  | eof : Err
  | jsonDecode (msg : String) : Err
  | lineTooLong : Err
  | decoderErr (inner : Err) : Err
  | invalidInput (tooLarge : Bool) (message : String) (document : List Char) : Err
  | wrapped (msg : String) (inner : Err) : Err
  | generic (msg : String) : Err
  deriving DecidableEq, Repr

/-- Model of `err.Error()`: the message string of an error.  `errors.Wrap`
formats as `"msg: inner"`. -/
def errMessage : Err → String
  | .eof => "EOF"
  | .jsonDecode m => m
  | .lineTooLong => "line exceeded permitted length"
  | .decoderErr e => errMessage e
  | .invalidInput _ m _ => m
  | .wrapped m e => m ++ ": " ++ errMessage e
  | .generic m => m

/-- Model of `errors.As(err, &invalidInput)`: walks the unwrap chain looking for
a `*InvalidInputError`. -/
def isInvalidInputErr : Err → Bool
  | .invalidInput _ _ _ => true
  | .decoderErr e => isInvalidInputErr e
  | .wrapped _ e => isInvalidInputErr e
  | _ => false

/-- Model of `errors.Is(e, decoder.ErrLineTooLong)`: walks the unwrap chain
looking for the sentinel. -/
def isLineTooLongErr : Err → Bool
  | .lineTooLong => true
  | .decoderErr e => isLineTooLongErr e
  | .wrapped _ e => isLineTooLongErr e
  | _ => false

/-- Model of `streamReader.wrapError` (processor.go:288-311).  `latest` stands for
`sr.LatestLine()`.  A direct type assertion handles `JSONDecodeError`,
a direct type assertion unwraps one `DecoderError` layer, then
`errors.Is` tests for the line-too-long sentinel. -/
def wrapError (latest : List Char) (err : Err) : Err :=
  match err with
  | .jsonDecode m => .invalidInput false m latest
  | _ =>
    let e := match err with
      | .decoderErr inner => inner
      | _ => err
    if isLineTooLongErr e then
      .invalidInput true "event exceeded the permitted size." latest
    else err

/-- The six event-kind tokens of the `const` block (processor.go:42-49). -/
def errorEventType : List Char := "error".toList

def metricsetEventType : List Char := "metricset".toList

def spanEventType : List Char := "span".toList

def transactionEventType : List Char := "transaction".toList

def rumv3ErrorEventType : List Char := "e".toList

def rumv3TransactionEventType : List Char := "x".toList

/-- The sentinel `errUnrecognizedObject` (processor.go:39). -/
def errUnrecognizedObject : Err := .generic "did not recognize object type"

/-- The scan of `identifyEventType` (processor.go:117-125): find the
first `"` or `'` byte; return it and the remainder after it.  When no
quote occurs, `quote` keeps its zero value and `key` stays nil, exactly
as in the Go code. -/
def scanQuote : List Char → Char × List Char
  | [] => (Char.ofNat 0, [])
  | c :: rest => if c = '"' || c = '\'' then (c, rest) else scanQuote rest

/-- Model of `bytes.IndexByte` on the model's byte (Char) lists. -/
def idxOf : List Char → Char → Option Nat
  | [], _ => none
  | c :: rest, q => if c = q then some 0 else (idxOf rest q).map (· + 1)

/-- Model of `Processor.identifyEventType` (processor.go:115-131): the token
between the first quote character and the next occurrence of the same
quote character, `none` (Go `nil`) when no closing quote is found. -/
def identifyEventType (body : List Char) : Option (List Char) :=
  let (quote, key) := scanQuote body
  match idxOf key quote with
  | none => none
  | some e => some (key.take e)

/-- Go `string(eventType)` on a possibly-nil byte slice. -/
def etString (o : Option (List Char)) : List Char := o.getD []

/-- Modelled from the spec: an APM event carries stream metadata plus the
two mutable label maps (`Labels`, `NumericLabels`); every field other
than the label maps is abstracted into `rest` (numeric label values are
modelled with `Int` since only map structure matters here). -/
structure APMEvent where
  labels : Option (List (String × String))
  numericLabels : Option (List (String × Int))
  rest : String
  deriving DecidableEq, Repr

/-- Model of `copyEvent` (processor.go:315-324) at the level of map contents: the
shallow copy keeps every field, and `Clone` produces a map with the same
entries, so content-wise the label maps are unchanged (the aliasing
aspect of `Clone` is modelled separately by `copyEventH`). -/
def copyEvent (e : APMEvent) : APMEvent :=
  { e with labels := e.labels, numericLabels := e.numericLabels }

/-- Model of `model.Batch`: an ordered sequence of events. -/
abbrev Batch := List APMEvent

/-- Modelled from the spec: the `Result` error-list cap (the concrete
constant is not among the provided sources; the spec only requires the
list to be capped). -/
def errorsLimit : Nat := 5

/-- Modelled from the spec: `Result` accumulates an accepted-event count
and a capped list of per-document errors. -/
structure Result where
  accepted : Nat
  errors : List Err
  deriving DecidableEq, Repr

/-- Modelled from the spec: `Result.LimitedAdd` appends to the error
list only while it is below the cap. -/
def Result.limitedAdd (r : Result) (e : Err) : Result :=
  if r.errors.length < errorsLimit then { r with errors := r.errors ++ [e] } else r

/-- Modelled from the spec: `Result.AddAccepted` adds to the accepted
counter. -/
def Result.addAccepted (r : Result) (n : Nat) : Result :=
  { r with accepted := r.accepted + n }

/-- Modelled from the spec: one `ReadAhead` outcome of the pooled
incremental reader — the raw line bytes, an optional error
(`eof`, oversize line, or any read failure), and whether this read
exhausts the underlying source. -/
structure ReadOutcome where
  body : List Char
  err : Option Err
  hitsEof : Bool
  deriving DecidableEq, Repr

/-- Modelled from the spec: the reader state — remaining read outcomes,
the `LatestLine` snapshot, and the EOF flag. -/
structure StreamReader where
  pending : List ReadOutcome
  latest : List Char
  isEof : Bool
  deriving DecidableEq, Repr

/-- Modelled from the spec: `ReadAhead` returns the next line's raw
bytes or signals EOF; it records the line into the `LatestLine`
snapshot and updates the EOF flag. -/
def readAhead (r : StreamReader) : (List Char × Option Err) × StreamReader :=
  match r.pending with
  | [] => (([], some .eof), { r with isEof := true })
  | o :: rest => ((o.body, o.err), { pending := rest, latest := o.body, isEof := o.hitsEof })

/-- Modelled from the spec: outcome of one per-kind decoder call — the
events it appended to the batch and its returned error. -/
structure DecodeResult where
  events : List APMEvent
  err : Option Err
  deriving DecidableEq, Repr

/-- The dialect × kind decoder set dispatched in the `switch`
(processor.go:167-182). -/
inductive EventKind where
  | errorKind | metricsetKind | spanKind | transactionKind
  | rumv3ErrorKind | rumv3TransactionKind
  deriving DecidableEq, Repr

/-- Modelled from the spec: the family of per-kind decoders
(`v2.DecodeNested*`, `rumv3.DecodeNested*`); each consumes the
read-ahead document body, starts from the supplied base event, and
reports appended events plus an error. -/
abbrev DecodeFn := EventKind → List Char → APMEvent → DecodeResult

/-- The `switch string(eventType)` dispatch table keys
(processor.go:167-180). -/
def eventKindOfToken (tok : List Char) : Option EventKind :=
  if tok = errorEventType then some .errorKind
  else if tok = metricsetEventType then some .metricsetKind
  else if tok = spanEventType then some .spanKind
  else if tok = transactionEventType then some .transactionKind
  else if tok = rumv3ErrorEventType then some .rumv3ErrorKind
  else if tok = rumv3TransactionEventType then some .rumv3TransactionKind
  else none

/-- The `switch string(eventType)` block (processor.go:167-182): classify
the body, dispatch to the per-kind decoder starting from
`copyEvent(baseEvent)`, or produce the wrapped
`errUnrecognizedObject` in the default case. -/
def dispatchDecode (decode : DecodeFn) (baseEvent : APMEvent) (body : List Char) : DecodeResult :=
  let tok := etString (identifyEventType body)
  match eventKindOfToken tok with
  | some k => decode k body (copyEvent baseEvent)
  | none => ⟨[], some (.wrapped (String.mk tok) errUnrecognizedObject)⟩

/-- The body of the `readBatch` loop (processor.go:148-189), fuelled by
the remaining iteration count `batchSize - i`.  Each iteration:
check `IsEOF`; `ReadAhead`; a non-EOF read error is wrapped and either
recorded (`InvalidInputError`) or returned early; an empty body is
skipped; otherwise the document is classified and decoded from a copy
of the base event, and any non-EOF decode error is recorded as a
per-document `InvalidInputError`. -/
def readBatchGo (decode : DecodeFn) (baseEvent : APMEvent) :
    Nat → Batch → StreamReader → Result → Batch × StreamReader × Result × Option Err
  | 0, batch, reader, result => (batch, reader, result, none)
  | fuel + 1, batch, reader, result =>
    if reader.isEof then (batch, reader, result, none)
    else
      let ((body, rerr), reader') := readAhead reader
      let hardReadErr : Option Err :=
        match rerr with
        | some e => if e = .eof then none else some e
        | none => none
      match hardReadErr with
      | some e =>
        let w := wrapError reader'.latest e
        if isInvalidInputErr w then
          readBatchGo decode baseEvent fuel batch reader' (result.limitedAdd w)
        else
          (batch, reader', result, some w)
      | none =>
        if body = [] then
          readBatchGo decode baseEvent fuel batch reader' result
        else
          let dres := dispatchDecode decode baseEvent body
          let batch' := batch ++ dres.events
          let hardDecodeErr : Option Err :=
            match dres.err with
            | some de => if de = .eof then none else some de
            | none => none
          match hardDecodeErr with
          | some de =>
            readBatchGo decode baseEvent fuel batch' reader'
              (result.limitedAdd (.invalidInput false (errMessage de) reader'.latest))
          | none =>
            readBatchGo decode baseEvent fuel batch' reader' result

/-- Model of `Processor.readBatch` (processor.go:137-194): run the loop, then
return the count of newly appended events together with the signal —
the early error if the loop short-circuited, else `io.EOF` exactly when
the reader is at EOF. -/
def readBatch (decode : DecodeFn) (baseEvent : APMEvent) (batchSize : Nat)
    (batch : Batch) (reader : StreamReader) (result : Result) :
    Batch × StreamReader × Result × Nat × Option Err :=
  let origLen := batch.length
  match readBatchGo decode baseEvent batchSize batch reader result with
  | (b, r, res, some e) => (b, r, res, b.length - origLen, some e)
  | (b, r, res, none) =>
    (b, r, res, b.length - origLen, if r.isEof then some Err.eof else none)

/-- Modelled from the spec: the dialect-selected metadata decode
function (`v2.DecodeNestedMetadata` / `rumv3.DecodeNestedMetadata`),
abstracted as any function consuming reader state and filling the base
event. -/
abbrev MetadataFn := StreamReader → APMEvent → APMEvent × StreamReader × Option Err

/-- Model of `Processor.readMetadata` (processor.go:89-107): a metadata decode
error is passed through `wrapError`; a bare `io.EOF` becomes the
structured "EOF while reading metadata" error; an `InvalidInputError`
(direct type assertion) passes through; anything else is wrapped into an
`InvalidInputError` carrying its message and the latest line. -/
def readMetadata (decodeMetadata : MetadataFn) (reader : StreamReader) (out : APMEvent) :
    APMEvent × StreamReader × Option Err :=
  match decodeMetadata reader out with
  | (out', reader', none) => (out', reader', none)
  | (out', reader', some err0) =>
    let err := wrapError reader'.latest err0
    if err = .eof then
      (out', reader', some (.invalidInput false "EOF while reading metadata" reader'.latest))
    else
      match err with
      | .invalidInput t m d => (out', reader', some (.invalidInput t m d))
      | _ => (out', reader', some (.invalidInput false (errMessage err) reader'.latest))

/-- Modelled from the spec: the downstream `model.BatchProcessor`; it
consumes a batch and reports an error only for unrecoverable downstream
conditions. -/
abbrev ProcessBatchFn := Batch → Option Err

/-- The `for {}` loop of `HandleStream` (processor.go:240-259), fuelled:
read a batch into a fresh slice; if events were appended, forward them
downstream (a downstream error returns immediately, without counting the
batch) and add the batch length to the accepted count; then `io.EOF`
breaks cleanly, any other error is returned, otherwise loop.  `none`
means the fuel ran out before the loop terminated. -/
def handleStreamLoop (decode : DecodeFn) (processBatch : ProcessBatchFn)
    (baseEvent : APMEvent) (batchSize : Nat) :
    Nat → StreamReader → Result → Option (Result × Option Err)
  | 0, _, _ => none
  | fuel + 1, reader, result =>
    match readBatch decode baseEvent batchSize [] reader result with
    | (batch, reader', result', n, readErr) =>
      if 0 < n then
        match processBatch batch with
        | some e => some (result', some e)
        | none =>
          let result2 := result'.addAccepted batch.length
          match readErr with
          | some Err.eof => some (result2, none)
          | some e => some (result2, some e)
          | none => handleStreamLoop decode processBatch baseEvent batchSize fuel reader' result2
      else
        match readErr with
        | some Err.eof => some (result', none)
        | some e => some (result', some e)
        | none => handleStreamLoop decode processBatch baseEvent batchSize fuel reader' result'

/-- Model of `Processor.HandleStream` (processor.go:204-261) after semaphore
admission (the admission protocol is modelled separately): decode the
mandatory metadata line — a failure is returned directly — then run the
batch loop. -/
def handleStream (decodeMetadata : MetadataFn) (decode : DecodeFn)
    (processBatch : ProcessBatchFn) (baseEvent : APMEvent) (reader : StreamReader)
    (batchSize fuel : Nat) (result : Result) : Option (Result × Option Err) :=
  match readMetadata decodeMetadata reader baseEvent with
  | (_, _, some e) => some (result, some e)
  | (base', reader', none) => handleStreamLoop decode processBatch base' batchSize fuel reader' result

/-! ### Heap model of `copyEvent`

Go maps are references; `copyEvent` (processor.go:313-324) makes a
shallow copy of the event and replaces the `Labels` / `NumericLabels`
references by fresh maps of equal content via `Clone`.  The heap model
makes the reference semantics explicit. -/

/-- Modelled from the spec: a heap of label maps — an allocation counter
and the stored contents, one heap per label-map type. -/
structure Heap where
  nextL : Nat
  lmem : Nat → List (String × String)
  nextN : Nat
  nmem : Nat → List (String × Int)

/-- An event whose label-map fields are heap references, matching Go's
reference semantics for `model.APMEvent.Labels` / `.NumericLabels`;
every other field is abstracted into `rest`. -/
structure APMEventH where
  labels : Option Nat
  numericLabels : Option Nat
  rest : String
  deriving DecidableEq, Repr

/-- The event's label references are allocated in the heap. -/
def Heap.wf (h : Heap) (e : APMEventH) : Prop :=
  (∀ r, e.labels = some r → r < h.nextL) ∧
  (∀ r, e.numericLabels = some r → r < h.nextN)

/-- Allocate a fresh string-label map holding `v`. -/
def Heap.allocL (h : Heap) (v : List (String × String)) : Nat × Heap :=
  (h.nextL,
   { h with nextL := h.nextL + 1, lmem := fun i => if i = h.nextL then v else h.lmem i })

/-- Allocate a fresh numeric-label map holding `v`. -/
def Heap.allocN (h : Heap) (v : List (String × Int)) : Nat × Heap :=
  (h.nextN,
   { h with nextN := h.nextN + 1, nmem := fun i => if i = h.nextN then v else h.nmem i })

/-- A decoder-side mutation of a string-label map: store update at a
reference. -/
def Heap.setL (h : Heap) (r : Nat) (v : List (String × String)) : Heap :=
  { h with lmem := fun i => if i = r then v else h.lmem i }

/-- Model of `copyEvent` under the heap model: `out := e` copies every field;
non-nil `Labels` / `NumericLabels` are replaced by `Clone`s — freshly
allocated maps with the same content; nil maps stay nil. -/
def copyEventH (e : APMEventH) (h : Heap) : APMEventH × Heap :=
  let (l, h1) :=
    match e.labels with
    | none => (none, h)
    | some r => let (r', h') := h.allocL (h.lmem r); (some r', h')
  let (n, h2) :=
    match e.numericLabels with
    | none => (none, h1)
    | some r => let (r', h') := h1.allocN (h1.nmem r); (some r', h')
  ({ e with labels := l, numericLabels := n }, h2)

/-! ### The admission semaphore (processor.go:219-229)

`HandleStream` admits itself by sending on the shared buffered channel
`p.sem` inside a `select` that also observes `ctx.Done()`, and the
deferred receive releases the slot.  The protocol is modelled as an
interleaving step relation over the phases of the concurrent
invocations; the buffered channel with capacity `cap` accepts a send
exactly when fewer than `cap` structs are buffered, i.e. when fewer
than `cap` invocations are currently holding. -/

/-- Phase of one `HandleStream` invocation with respect to the
semaphore: before the `select`; blocked in the `select`; between
successful admission and the deferred release; after release; or
returned via `ctx.Done()` without a slot. -/
inductive Phase where
  | idle | waiting | holding | released | cancelled
  deriving DecidableEq, Repr

/-- The number of invocations currently holding a slot — the number of
structs buffered in the `sem` channel. -/
def holdingCount (ts : List Phase) : Nat := ts.countP (· = Phase.holding)

/-- One interleaving step of the admission protocol with channel
capacity `cap`. -/
inductive SemStep (cap : Nat) : List Phase → List Phase → Prop
  | enter (ts : List Phase) (i : Nat) (h : ts.get? i = some .idle) :
      SemStep cap ts (ts.set i .waiting)
  | acquire (ts : List Phase) (i : Nat) (h : ts.get? i = some .waiting)
      (hfree : holdingCount ts < cap) :
      SemStep cap ts (ts.set i .holding)
  | cancel (ts : List Phase) (i : Nat) (h : ts.get? i = some .waiting) :
      SemStep cap ts (ts.set i .cancelled)
  | release (ts : List Phase) (i : Nat) (h : ts.get? i = some .holding) :
      SemStep cap ts (ts.set i .released)

/-- Reachability under arbitrary interleavings of the admission
protocol. -/
def SemReachable (cap : Nat) : List Phase → List Phase → Prop :=
  Relation.ReflTransGen (SemStep cap)

/-! ### Concrete fixtures used by the closed (witness / counterexample)
theorems. -/

/-- A concrete base event with one label. -/
def demoBase : APMEvent := ⟨some [("k", "v")], none, "base"⟩

/-- A valid primary-dialect transaction document body. -/
def goodBody1 : List Char := "\"transaction\": 1".toList

/-- A valid primary-dialect span document body. -/
def goodBody2 : List Char := "\"span\": 2".toList

/-- A valid compact-dialect error document body. -/
def goodBody3 : List Char := "\"e\": 3".toList

/-- A malformed transaction document body: it classifies as a
transaction but its decoder rejects it. -/
def badBody : List Char := "\"transaction\": bad".toList

/-- A concrete per-kind decoder family: rejects `badBody` with a JSON
decode error, decodes any other body into one event derived from the
base. -/
def demoDecode : DecodeFn := fun _ body base =>
  if body = badBody then ⟨[], some (.jsonDecode "data read error: invalid character")⟩
  else ⟨[{ base with rest := String.mk body }], none⟩

/-- A successful read outcome carrying `b`. -/
def demoItem (b : List Char) : ReadOutcome := ⟨b, none, false⟩

/-- A downstream processor that accepts every batch. -/
def demoPB : ProcessBatchFn := fun _ => none

/-- A metadata decoder that succeeds without touching the reader. -/
def demoMeta : MetadataFn := fun r b => (b, r, none)

/-- The all-accepting fresh result. -/
def emptyResult : Result := ⟨0, []⟩

/-- A fresh reader over the given read outcomes. -/
def readerOf (items : List ReadOutcome) : StreamReader := ⟨items, [], false⟩

/-- The truncated snapshot of an oversize line, as returned by the
reader alongside the oversize-line error. -/
def oversizedPart : List Char := "\"transaction\": ve".toList

/-- A metadata decoder that fails with `io.EOF` (end of input before
any metadata line), leaving the reader untouched. -/
def demoMetaEof : MetadataFn := fun r b => (b, r, some .eof)

/-- A per-kind decoder family whose failure on `badBody` is a generic
(unclassified) error rather than a structured input error. -/
def failDecode : DecodeFn := fun _ body base =>
  if body = badBody then ⟨[], some (.generic "internal decoder failure")⟩
  else ⟨[{ base with rest := String.mk body }], none⟩

/-- A downstream processor that rejects every batch. -/
def failPB : ProcessBatchFn := fun _ => some (.generic "downstream unavailable")

/-- A concrete one-map heap for the heap-model witnesses. -/
def demoHeap : Heap := ⟨1, fun _ => [("k", "v")], 0, fun _ => []⟩

/-- A concrete heap-model event whose labels live at reference 0. -/
def demoEventH : APMEventH := ⟨some 0, none, "base"⟩

/-- Spec-side restatement of the classifier, for the refinement claim:
"exactly the bytes strictly between the first occurrence of a quote
character and the next occurrence of that same quote character, empty
when no closing quote of the same kind follows". -/
def specIdentifyEventType (body : List Char) : Option (List Char) :=
  match body.dropWhile (fun c => !(c = '"' || c = '\'')) with
  | [] => none
  | q :: rest =>
    match idxOf rest q with
    | none => none
    | some j => some (rest.take j)

/-! ## Helper lemmas -/

/-- The `LimitedAdd` operation never changes the accepted counter. -/
theorem limitedAdd_accepted (r : Result) (e : Err) :
    (r.limitedAdd e).accepted = r.accepted := by
  unfold Result.limitedAdd
  split <;> rfl

/-- Unfolding `ReadAhead` on a reader with a pending outcome. -/
theorem readAhead_cons (r : StreamReader) (o : ReadOutcome) (rest : List ReadOutcome)
    (h : r.pending = o :: rest) :
    readAhead r = ((o.body, o.err), ⟨rest, o.body, o.hitsEof⟩) := by
  unfold readAhead
  rw [h]

/-- When `wrapError` does not produce an `InvalidInputError` it returns
the original error unchanged. -/
theorem wrapError_eq_of_not_invalid (l : List Char) (e : Err)
    (h : isInvalidInputErr (wrapError l e) = false) : wrapError l e = e := by
  unfold wrapError at h ⊢
  cases e with
  | jsonDecode m => simp [isInvalidInputErr] at h
  | decoderErr inner =>
    by_cases hl : isLineTooLongErr inner = true
    · simp [hl, isInvalidInputErr] at h
    · simp [hl]
  | wrapped m inner =>
    by_cases hl : isLineTooLongErr inner = true
    · simp [isLineTooLongErr, hl, isInvalidInputErr] at h
    · simp [isLineTooLongErr, hl]
  | eof => simp [isLineTooLongErr]
  | lineTooLong => simp [isLineTooLongErr, isInvalidInputErr] at h
  | invalidInput t m d => simp [isLineTooLongErr]
  | generic m => simp [isLineTooLongErr]

/-- The loop never changes the accepted counter: only `LimitedAdd` is
applied to the result inside `readBatch`. -/
theorem readBatchGo_accepted (d : DecodeFn) (base : APMEvent) :
    ∀ fuel batch reader result,
      ((readBatchGo d base fuel batch reader result).2.2.1).accepted = result.accepted := by
  intro fuel
  induction fuel with
  | zero => intro batch reader result; rfl
  | succ n ih =>
    intro batch reader result
    rw [readBatchGo]
    split
    · rfl
    · rcases hra : readAhead reader with ⟨⟨body, rerr⟩, reader'⟩
      dsimp only
      split
      · split
        · rw [ih]; exact limitedAdd_accepted _ _
        · rfl
      · split
        · exact ih _ _ _
        · split
          · rw [ih]; exact limitedAdd_accepted _ _
          · exact ih _ _ _

/-- The loop only appends to the batch. -/
theorem readBatchGo_append (d : DecodeFn) (base : APMEvent) :
    ∀ fuel batch reader result,
      ∃ t, (readBatchGo d base fuel batch reader result).1 = batch ++ t := by
  intro fuel
  induction fuel with
  | zero => intro batch reader result; exact ⟨[], by simp [readBatchGo]⟩
  | succ n ih =>
    intro batch reader result
    rw [readBatchGo]
    split
    · exact ⟨[], by simp⟩
    · rcases hra : readAhead reader with ⟨⟨body, rerr⟩, reader'⟩
      dsimp only
      split
      · split
        · exact ih _ _ _
        · exact ⟨[], by simp⟩
      · split
        · exact ih _ _ _
        · split
          · obtain ⟨t, ht⟩ := ih (batch ++ (dispatchDecode d base body).events) reader'
              (result.limitedAdd (Err.invalidInput false (errMessage _) reader'.latest))
            exact ⟨(dispatchDecode d base body).events ++ t, by rw [ht, List.append_assoc]⟩
          · obtain ⟨t, ht⟩ := ih (batch ++ (dispatchDecode d base body).events) reader' result
            exact ⟨(dispatchDecode d base body).events ++ t, by rw [ht, List.append_assoc]⟩

/-- The loop's early-return error is never the bare `io.EOF`: it is
either a recorded-then-skipped case or a wrapped non-EOF read error. -/
theorem readBatchGo_ne_eof (d : DecodeFn) (base : APMEvent) :
    ∀ fuel batch reader result,
      (readBatchGo d base fuel batch reader result).2.2.2 ≠ some Err.eof := by
  intro fuel
  induction fuel with
  | zero => intro batch reader result; simp [readBatchGo]
  | succ n ih =>
    intro batch reader result
    rw [readBatchGo]
    split
    · simp
    · rcases hra : readAhead reader with ⟨⟨body, rerr⟩, reader'⟩
      dsimp only
      split
      · next e heq =>
        split
        · exact ih _ _ _
        · next hni =>
          rcases rerr with _ | e0
          · simp at heq
          · simp only [] at heq
            split at heq
            · simp at heq
            · next hne0 =>
              rw [Option.some_inj] at heq
              subst heq
              have hw := wrapError_eq_of_not_invalid reader'.latest e0 (by simpa using hni)
              simp [hw, hne0]
      · split
        · exact ih _ _ _
        · split
          · exact ih _ _ _
          · exact ih _ _ _

/-- The classifier agrees with its spec-side restatement. -/
theorem identify_eq_spec : ∀ body, identifyEventType body = specIdentifyEventType body := by
  intro body
  induction body with
  | nil => rfl
  | cons c rest ih =>
    by_cases hc : (c = '"' || c = '\'') = true
    · simp [identifyEventType, specIdentifyEventType, scanQuote, List.dropWhile, hc]
    · simpa [identifyEventType, specIdentifyEventType, scanQuote, List.dropWhile, hc] using ih

/-- The index search finds the closing quote right after a quote-free
token. -/
theorem idxOf_append_self (q : Char) :
    ∀ t rest, (∀ c ∈ t, c ≠ q) → idxOf (t ++ q :: rest) q = some t.length := by
  intro t
  induction t with
  | nil => intro rest h; simp [idxOf]
  | cons a t ih =>
    intro rest h
    have ha : a ≠ q := h a (by simp)
    simp [idxOf, ha, ih rest (fun c hc => h c (by simp [hc]))]

/-- On a quote-free body the scan leaves the zero quote byte and the nil
key slice, as in the Go code. -/
theorem scanQuote_no_quote :
    ∀ body, (∀ c ∈ body, c ≠ '"' ∧ c ≠ '\'') → scanQuote body = (Char.ofNat 0, []) := by
  intro body
  induction body with
  | nil => intro _; rfl
  | cons c rest ih =>
    intro h
    have hc := h c (by simp)
    simp only [scanQuote]
    rw [if_neg (by simp [hc.1, hc.2])]
    exact ih (fun x hx => h x (by simp [hx]))

/-- A quote-free body classifies to `none`. -/
theorem identify_no_quote (body : List Char)
    (h : ∀ c ∈ body, c ≠ '"' ∧ c ≠ '\'') : identifyEventType body = none := by
  unfold identifyEventType
  rw [scanQuote_no_quote body h]
  rfl

/-- One iteration of the loop on a document whose token is not a known
kind: the wrapped `errUnrecognizedObject` is recorded into the capped
error list and the loop continues with the next document. -/
theorem readBatchGo_step_unrecognized (d : DecodeFn) (baseEvent : APMEvent) (fuel : Nat)
    (batch : Batch) (lat : List Char) (result : Result) (o : ReadOutcome)
    (rest : List ReadOutcome) (ho : o.err = none) (hb : o.body ≠ [])
    (hk : eventKindOfToken (etString (identifyEventType o.body)) = none) :
    readBatchGo d baseEvent (fuel + 1) batch ⟨o :: rest, lat, false⟩ result =
      readBatchGo d baseEvent fuel batch ⟨rest, o.body, o.hitsEof⟩
        (result.limitedAdd (.invalidInput false
          (String.mk (etString (identifyEventType o.body)) ++ ": " ++
            "did not recognize object type")
          o.body)) := by
  rw [readBatchGo]
  simp [readAhead, ho, hb, dispatchDecode, hk, errMessage, errUnrecognizedObject]

/-- C6: `identifyEventType` returns exactly the bytes strictly between
the first occurrence of a quote character (`"` or `'`) and the next
occurrence of that same quote character, and an empty result when no
closing quote of the same kind follows (first conjunct: agreement with
the spec-side restatement); a root key quoted with either quote
character classifies identically (second conjunct); a token not mapped
to one of the six known kinds causes the document to be recorded as a
per-document "did not recognize object type" error while the loop
continues (third conjunct). -/
theorem c6_classifier_contract :
    (∀ body, identifyEventType body = specIdentifyEventType body)
    ∧ (∀ t rest, (∀ c ∈ t, c ≠ '"' ∧ c ≠ '\'') →
        identifyEventType ('"' :: (t ++ '"' :: rest)) = some t ∧
        identifyEventType ('\'' :: (t ++ '\'' :: rest)) = some t)
    ∧ (∀ (d : DecodeFn) (baseEvent : APMEvent) (fuel : Nat) (batch : Batch)
        (lat : List Char) (result : Result) (o : ReadOutcome) (rest : List ReadOutcome),
        o.err = none → o.body ≠ [] →
        eventKindOfToken (etString (identifyEventType o.body)) = none →
        readBatchGo d baseEvent (fuel + 1) batch ⟨o :: rest, lat, false⟩ result =
          readBatchGo d baseEvent fuel batch ⟨rest, o.body, o.hitsEof⟩
            (result.limitedAdd (.invalidInput false
              (String.mk (etString (identifyEventType o.body)) ++ ": " ++
                "did not recognize object type")
              o.body))) := by
  refine ⟨identify_eq_spec, ?_, ?_⟩
  · intro t rest h
    constructor
    · have hs : scanQuote ('"' :: (t ++ '"' :: rest)) = ('"', t ++ '"' :: rest) := by
        simp [scanQuote]
      unfold identifyEventType
      rw [hs]
      dsimp only
      rw [idxOf_append_self '"' t rest (fun c hc => (h c hc).1)]
      simp [List.take_left]
    · have hs : scanQuote ('\'' :: (t ++ '\'' :: rest)) = ('\'', t ++ '\'' :: rest) := by
        simp [scanQuote]
      unfold identifyEventType
      rw [hs]
      dsimp only
      rw [idxOf_append_self '\'' t rest (fun c hc => (h c hc).2)]
      simp [List.take_left]
  · exact readBatchGo_step_unrecognized

/-- Witness for C6 at the concrete token `span`, both quote styles. -/
theorem c6_classifier_contract_witness :
    identifyEventType ('"' :: ("span".toList ++ '"' :: " : 0".toList)) = some "span".toList ∧
    identifyEventType ('\'' :: ("span".toList ++ '\'' :: " : 0".toList)) = some "span".toList :=
  c6_classifier_contract.2.1 "span".toList " : 0".toList (by decide)

/-- C10: `identifyEventType` is total, and on a body containing no quote
character the scan leaves the zero byte and the empty key slice, the
closing-quote search on that empty slice fails, and the classification
is `none` (Go `nil`); such a document is recorded as a per-document
unrecognized-object error and the loop continues with the next
document. -/
theorem c10_no_quote_total :
    (∀ body, (∀ c ∈ body, c ≠ '"' ∧ c ≠ '\'') →
        scanQuote body = (Char.ofNat 0, []) ∧
        idxOf [] (Char.ofNat 0) = none ∧
        identifyEventType body = none)
    ∧ (∀ (d : DecodeFn) (baseEvent : APMEvent) (fuel : Nat) (batch : Batch)
        (lat : List Char) (result : Result) (o : ReadOutcome) (rest : List ReadOutcome),
        o.err = none → o.body ≠ [] → (∀ c ∈ o.body, c ≠ '"' ∧ c ≠ '\'') →
        readBatchGo d baseEvent (fuel + 1) batch ⟨o :: rest, lat, false⟩ result =
          readBatchGo d baseEvent fuel batch ⟨rest, o.body, o.hitsEof⟩
            (result.limitedAdd (.invalidInput false
              (": did not recognize object type") o.body))) := by
  constructor
  · intro body h
    exact ⟨scanQuote_no_quote body h, rfl, identify_no_quote body h⟩
  · intro d baseEvent fuel batch lat result o rest ho hb hnq
    have hident : identifyEventType o.body = none := identify_no_quote o.body hnq
    have hk : eventKindOfToken (etString (identifyEventType o.body)) = none := by
      rw [hident]; decide
    have hmsg : (String.mk (etString (identifyEventType o.body)) ++ ": " ++
        "did not recognize object type") = ": did not recognize object type" := by
      rw [hident]; decide
    have := readBatchGo_step_unrecognized d baseEvent fuel batch lat result o rest ho hb hk
    rw [hmsg] at this
    exact this

/-- Witness for C10 at a concrete quote-free body. -/
theorem c10_no_quote_total_witness :
    scanQuote "abc".toList = (Char.ofNat 0, []) ∧
    idxOf [] (Char.ofNat 0) = none ∧
    identifyEventType "abc".toList = none :=
  c10_no_quote_total.1 "abc".toList (by decide)

/-- C1: a document whose failure is classified as an
`InvalidInputError` is recorded into the capped error list and the loop
continues with the next document (first conjunct, the read-error path);
and a stream of 3 valid documents and 1 malformed document, with the
malformed one in any position, yields an accepted count of 3, exactly
one recorded error (the structured invalid-input error for the
malformed document), and no terminal error from `HandleStream` (second
conjunct). -/
theorem c1_invalid_input_recorded_not_terminal :
    (∀ (d : DecodeFn) (baseEvent : APMEvent) (fuel : Nat) (batch : Batch)
        (lat : List Char) (result : Result) (o : ReadOutcome) (rest : List ReadOutcome) (e : Err),
        o.err = some e → e ≠ Err.eof → isInvalidInputErr (wrapError o.body e) = true →
        readBatchGo d baseEvent (fuel + 1) batch ⟨o :: rest, lat, false⟩ result =
          readBatchGo d baseEvent fuel batch ⟨rest, o.body, o.hitsEof⟩
            (result.limitedAdd (wrapError o.body e)))
    ∧ (∀ i, i < 4 →
        handleStream demoMeta demoDecode demoPB demoBase
            (readerOf (List.insertIdx i (demoItem badBody)
              [demoItem goodBody1, demoItem goodBody2, demoItem goodBody3])) 10 10 emptyResult =
          some (⟨3, [.invalidInput false "data read error: invalid character" badBody]⟩,
            none)) := by
  constructor
  · intro d baseEvent fuel batch lat result o rest e ho hne hinv
    rw [readBatchGo]
    simp [readAhead, ho, hne, hinv]
  · intro i hi
    interval_cases i <;> decide

/-- Witness for C1: the malformed document in position 1. -/
theorem c1_invalid_input_recorded_not_terminal_witness :
    (1 : Nat) < 4 ∧
    handleStream demoMeta demoDecode demoPB demoBase
        (readerOf (List.insertIdx 1 (demoItem badBody)
          [demoItem goodBody1, demoItem goodBody2, demoItem goodBody3])) 10 10 emptyResult =
      some (⟨3, [.invalidInput false "data read error: invalid character" badBody]⟩, none) :=
  ⟨by decide, c1_invalid_input_recorded_not_terminal.2 1 (by decide)⟩

/-- Counterexample to C3 as stated: the per-kind decoder for the first
document fails with a generic error that is not an `InvalidInputError`,
yet `readBatch` does not propagate it — the error is recorded as a
per-document `InvalidInputError`, the second document is still decoded
(the appended count is 1), and the returned signal is `io.EOF`, not the
decoder's error. -/
theorem c3_counterexample_decoder_error_not_propagated :
    readBatch failDecode demoBase 10 []
        (readerOf [demoItem badBody, demoItem goodBody1]) emptyResult =
      ([⟨demoBase.labels, demoBase.numericLabels, String.mk goodBody1⟩],
        ⟨[], goodBody1, true⟩,
        ⟨0, [.invalidInput false "internal decoder failure" badBody]⟩,
        1, some Err.eof) := by decide

/-- C3 (amended): inside one batch-decode pass, an error from the
line-read step that is not classified as an `InvalidInputError` is
propagated immediately from `readBatchGo`, short-circuiting the
remaining documents (first conjunct), and `readBatch` then still
returns the count of events appended so far (second conjunct); an error
returned by a per-kind decoder, however, is not propagated: it is
recorded as a per-document `InvalidInputError` and the pass continues
with the next document (third conjunct). -/
theorem c3_hard_read_errors_short_circuit :
    (∀ (d : DecodeFn) (baseEvent : APMEvent) (fuel : Nat) (batch : Batch)
        (lat : List Char) (result : Result) (o : ReadOutcome) (rest : List ReadOutcome) (e : Err),
        o.err = some e → e ≠ Err.eof → isInvalidInputErr (wrapError o.body e) = false →
        readBatchGo d baseEvent (fuel + 1) batch ⟨o :: rest, lat, false⟩ result =
          (batch, ⟨rest, o.body, o.hitsEof⟩, result, some (wrapError o.body e)))
    ∧ (∀ (d : DecodeFn) (baseEvent : APMEvent) (batchSize : Nat) (batch₀ batch : Batch)
        (reader r : StreamReader) (result res : Result) (e : Err),
        readBatchGo d baseEvent batchSize batch₀ reader result = (batch, r, res, some e) →
        readBatch d baseEvent batchSize batch₀ reader result =
          (batch, r, res, batch.length - batch₀.length, some e))
    ∧ (∀ (d : DecodeFn) (baseEvent : APMEvent) (fuel : Nat) (batch : Batch)
        (lat : List Char) (result : Result) (o : ReadOutcome) (rest : List ReadOutcome) (de : Err),
        o.err = none → o.body ≠ [] →
        (dispatchDecode d baseEvent o.body).err = some de → de ≠ Err.eof →
        readBatchGo d baseEvent (fuel + 1) batch ⟨o :: rest, lat, false⟩ result =
          readBatchGo d baseEvent fuel (batch ++ (dispatchDecode d baseEvent o.body).events)
            ⟨rest, o.body, o.hitsEof⟩
            (result.limitedAdd (.invalidInput false (errMessage de) o.body))) := by
  refine ⟨?_, ?_, ?_⟩
  · intro d baseEvent fuel batch lat result o rest e ho hne hni
    rw [readBatchGo]
    simp [readAhead, ho, hne, hni]
  · intro d baseEvent batchSize batch₀ batch reader r result res e h
    simp [readBatch, h]
  · intro d baseEvent fuel batch lat result o rest de ho hb hde hdne
    rw [readBatchGo]
    simp [readAhead, ho, hb, hde, hdne]

/-- Witness for C3 (amended): a generic read failure at a concrete
document short-circuits the pass. -/
theorem c3_hard_read_errors_short_circuit_witness :
    readBatchGo demoDecode demoBase 1 [] ⟨[⟨"x".toList, some (.generic "io fail"), false⟩],
        [], false⟩ emptyResult =
      ([], ⟨[], "x".toList, false⟩, emptyResult,
        some (wrapError "x".toList (.generic "io fail"))) :=
  c3_hard_read_errors_short_circuit.1 demoDecode demoBase 0 [] [] emptyResult
    ⟨"x".toList, some (.generic "io fail"), false⟩ [] (.generic "io fail")
    rfl (by decide) (by decide)

/-- C5: any failure of the mandatory metadata decode aborts the whole
stream — `readMetadata`'s error is returned directly by `HandleStream`
with the caller's result untouched, so zero events are accepted (first
conjunct); end of input before any metadata line (the metadata decoder
failing with a bare `io.EOF`) yields the structured `InvalidInputError`
with message "EOF while reading metadata" (second conjunct). -/
theorem c5_metadata_failure_aborts :
    (∀ (dm : MetadataFn) (d : DecodeFn) (pb : ProcessBatchFn) (base : APMEvent)
        (reader reader' : StreamReader) (bs fuel : Nat) (result : Result) (e : Err)
        (out' : APMEvent),
        readMetadata dm reader base = (out', reader', some e) →
        handleStream dm d pb base reader bs fuel result = some (result, some e))
    ∧ (∀ (dm : MetadataFn) (d : DecodeFn) (pb : ProcessBatchFn) (base : APMEvent)
        (reader reader' : StreamReader) (bs fuel : Nat) (result : Result) (out' : APMEvent),
        dm reader base = (out', reader', some Err.eof) →
        handleStream dm d pb base reader bs fuel result =
          some (result,
            some (.invalidInput false "EOF while reading metadata" reader'.latest))) := by
  constructor
  · intro dm d pb base reader reader' bs fuel result e out' h
    simp [handleStream, h]
  · intro dm d pb base reader reader' bs fuel result out' h
    have hrm : readMetadata dm reader base =
        (out', reader',
          some (.invalidInput false "EOF while reading metadata" reader'.latest)) := by
      unfold readMetadata
      rw [h]
      simp [wrapError, isLineTooLongErr]
    simp [handleStream, hrm]

/-- Witness for C5: an empty stream whose metadata decode hits EOF. -/
theorem c5_metadata_failure_aborts_witness :
    handleStream demoMetaEof demoDecode demoPB demoBase (readerOf []) 5 5 emptyResult =
      some (emptyResult, some (.invalidInput false "EOF while reading metadata" [])) :=
  c5_metadata_failure_aborts.2 demoMetaEof demoDecode demoPB demoBase
    (readerOf []) (readerOf []) 5 5 emptyResult demoBase rfl

/-- The whole `readBatch` never changes the accepted counter of the result. -/
theorem readBatch_accepted (d : DecodeFn) (baseEvent : APMEvent) (batchSize : Nat)
    (batch₀ : Batch) (reader : StreamReader) (result : Result)
    (batch : Batch) (r' : StreamReader) (res' : Result) (n : Nat) (sig : Option Err)
    (h : readBatch d baseEvent batchSize batch₀ reader result = (batch, r', res', n, sig)) :
    res'.accepted = result.accepted := by
  unfold readBatch at h
  have hacc := readBatchGo_accepted d baseEvent batchSize batch₀ reader result
  rcases hgo : readBatchGo d baseEvent batchSize batch₀ reader result with ⟨b0, r0, res0, sig0⟩
  rw [hgo] at h hacc
  rcases sig0 with _ | e <;>
    · dsimp only at h hacc
      simp only [Prod.mk.injEq] at h
      obtain ⟨-, -, h3, -, -⟩ := h
      rw [← h3]
      exact hacc

/-- Starting from an empty batch, `readBatch`'s returned count is the
final batch length. -/
theorem readBatch_count (d : DecodeFn) (baseEvent : APMEvent) (batchSize : Nat)
    (reader : StreamReader) (result : Result)
    (batch : Batch) (r' : StreamReader) (res' : Result) (n : Nat) (sig : Option Err)
    (h : readBatch d baseEvent batchSize [] reader result = (batch, r', res', n, sig)) :
    n = batch.length := by
  unfold readBatch at h
  rcases hgo : readBatchGo d baseEvent batchSize [] reader result with ⟨b0, r0, res0, sig0⟩
  rw [hgo] at h
  rcases sig0 with _ | e <;>
    · dsimp only at h
      simp only [Prod.mk.injEq] at h
      obtain ⟨h1, -, -, h4, -⟩ := h
      rw [← h4, ← h1]
      simp

/-- C2: the accepted count only ever increases, and exactly by the
lengths of the nonempty batches the downstream processor accepted
(first conjunct: any completed run of the `HandleStream` loop
decomposes into such batches); when `ProcessBatch` fails, the loop
returns that error immediately and the accepted count is unchanged by
the failed batch (second conjunct). -/
theorem c2_accepted_monotone_exact (d : DecodeFn) (pb : ProcessBatchFn)
    (baseEvent : APMEvent) (batchSize : Nat) :
    (∀ (fuel : Nat) (reader : StreamReader) (result result' : Result) (sig : Option Err),
        handleStreamLoop d pb baseEvent batchSize fuel reader result = some (result', sig) →
        ∃ batches : List Batch,
          (∀ bt ∈ batches, 0 < bt.length ∧ pb bt = none) ∧
          result'.accepted = result.accepted + (batches.map List.length).sum)
    ∧ (∀ (fuel : Nat) (reader r' : StreamReader) (result res' : Result) (batch : Batch)
        (n : Nat) (sig : Option Err) (e : Err),
        readBatch d baseEvent batchSize [] reader result = (batch, r', res', n, sig) →
        0 < n → pb batch = some e →
        handleStreamLoop d pb baseEvent batchSize (fuel + 1) reader result =
          some (res', some e) ∧ res'.accepted = result.accepted) := by
  constructor
  · intro fuel
    induction fuel with
    | zero => intro reader result result' sig h; simp [handleStreamLoop] at h
    | succ m ih =>
      intro reader result result' sig h
      rw [handleStreamLoop] at h
      rcases hrb : readBatch d baseEvent batchSize [] reader result with
        ⟨batch, reader', res1, n, readErr⟩
      rw [hrb] at h
      dsimp only at h
      have hacc : res1.accepted = result.accepted :=
        readBatch_accepted d baseEvent batchSize [] reader result batch reader' res1 n readErr hrb
      have hn : n = batch.length :=
        readBatch_count d baseEvent batchSize reader result batch reader' res1 n readErr hrb
      by_cases h0 : 0 < n
      · rw [if_pos h0] at h
        rcases hpb : pb batch with _ | e
        · rw [hpb] at h
          dsimp only at h
          split at h
          · simp only [Option.some_inj, Prod.mk.injEq] at h
            obtain ⟨h1, -⟩ := h
            refine ⟨[batch], ?_, ?_⟩
            · intro bt hbt
              rw [List.mem_singleton] at hbt
              subst hbt
              exact ⟨hn ▸ h0, hpb⟩
            · rw [← h1]
              simp [Result.addAccepted, hacc]
          · simp only [Option.some_inj, Prod.mk.injEq] at h
            obtain ⟨h1, -⟩ := h
            refine ⟨[batch], ?_, ?_⟩
            · intro bt hbt
              rw [List.mem_singleton] at hbt
              subst hbt
              exact ⟨hn ▸ h0, hpb⟩
            · rw [← h1]
              simp [Result.addAccepted, hacc]
          · obtain ⟨batches, hall, hsum⟩ := ih _ _ _ _ h
            refine ⟨batch :: batches, ?_, ?_⟩
            · intro bt hbt
              rcases List.mem_cons.mp hbt with rfl | hbt'
              · exact ⟨hn ▸ h0, hpb⟩
              · exact hall bt hbt'
            · rw [hsum]
              simp only [Result.addAccepted, List.map_cons, List.sum_cons, hacc]
              omega
        · rw [hpb] at h
          dsimp only at h
          simp only [Option.some_inj, Prod.mk.injEq] at h
          obtain ⟨rfl, -⟩ := h
          exact ⟨[], by simp, by simp [hacc]⟩
      · rw [if_neg h0] at h
        split at h
        · simp only [Option.some_inj, Prod.mk.injEq] at h
          obtain ⟨rfl, -⟩ := h
          exact ⟨[], by simp, by simp [hacc]⟩
        · simp only [Option.some_inj, Prod.mk.injEq] at h
          obtain ⟨rfl, -⟩ := h
          exact ⟨[], by simp, by simp [hacc]⟩
        · obtain ⟨batches, hall, hsum⟩ := ih _ _ _ _ h
          exact ⟨batches, hall, by rw [hsum, hacc]⟩
  · intro fuel reader r' result res' batch n sig e h hn0 hpb
    refine ⟨?_, readBatch_accepted d baseEvent batchSize [] reader result batch r' res' n sig h⟩
    simp [handleStreamLoop, h, hn0, hpb]

/-- Witness for C2: a concrete downstream failure returns the error and
leaves the accepted count unchanged. -/
theorem c2_accepted_monotone_exact_witness :
    handleStreamLoop demoDecode failPB demoBase 10 1 (readerOf [demoItem goodBody1])
        emptyResult =
      some ((⟨0, []⟩ : Result), some (.generic "downstream unavailable")) ∧
    (⟨0, []⟩ : Result).accepted = emptyResult.accepted :=
  (c2_accepted_monotone_exact demoDecode failPB demoBase 10).2 0
    (readerOf [demoItem goodBody1]) ⟨[], goodBody1, true⟩ emptyResult ⟨0, []⟩
    [⟨demoBase.labels, demoBase.numericLabels, String.mk goodBody1⟩] 1 (some Err.eof)
    (.generic "downstream unavailable") (by decide) (by decide) rfl

/-- C4: `readBatch` returns the number of events appended during the
pass (final length minus entry length, the final batch extending the
entry batch) together with a separate signal that is `io.EOF` only at
end of stream and `none` only when the stream has not ended (first
conjunct); `HandleStream` forwards appended events downstream before
inspecting the signal, and on `io.EOF` terminates cleanly with `none`
whether or not events were appended (second conjunct). -/
theorem c4_read_batch_return_contract :
    (∀ (d : DecodeFn) (baseEvent : APMEvent) (batchSize : Nat) (batch : Batch)
        (reader r : StreamReader) (result res : Result) (b : Batch) (n : Nat)
        (sig : Option Err),
        readBatch d baseEvent batchSize batch reader result = (b, r, res, n, sig) →
        n = b.length - batch.length ∧ (∃ t, b = batch ++ t) ∧
        (sig = some Err.eof → r.isEof = true) ∧
        (sig = none → r.isEof = false))
    ∧ (∀ (d : DecodeFn) (pb : ProcessBatchFn) (baseEvent : APMEvent) (batchSize fuel : Nat)
        (reader r : StreamReader) (result res : Result) (batch : Batch) (n : Nat),
        readBatch d baseEvent batchSize [] reader result = (batch, r, res, n, some Err.eof) →
        (0 < n → pb batch = none →
          handleStreamLoop d pb baseEvent batchSize (fuel + 1) reader result =
            some (res.addAccepted batch.length, none)) ∧
        (n = 0 →
          handleStreamLoop d pb baseEvent batchSize (fuel + 1) reader result =
            some (res, none))) := by
  constructor
  · intro d baseEvent batchSize batch reader r result res b n sig h
    unfold readBatch at h
    have happ := readBatchGo_append d baseEvent batchSize batch reader result
    have hnee := readBatchGo_ne_eof d baseEvent batchSize batch reader result
    rcases hgo : readBatchGo d baseEvent batchSize batch reader result with ⟨b0, r0, res0, sig0⟩
    rw [hgo] at h happ hnee
    rcases sig0 with _ | e
    · dsimp only at h happ
      simp only [Prod.mk.injEq] at h
      obtain ⟨rfl, rfl, rfl, rfl, rfl⟩ := h
      refine ⟨rfl, happ, ?_, ?_⟩
      · intro hs
        by_cases hie : r0.isEof = true
        · exact hie
        · simp [hie] at hs
      · intro hs
        by_cases hie : r0.isEof = true
        · simp [hie] at hs
        · simpa using hie
    · dsimp only at h happ hnee
      simp only [Prod.mk.injEq] at h
      obtain ⟨rfl, rfl, rfl, rfl, rfl⟩ := h
      refine ⟨rfl, happ, ?_, ?_⟩
      · intro hs
        exact absurd hs hnee
      · intro hs
        simp at hs
  · intro d pb baseEvent batchSize fuel reader r result res batch n h
    constructor
    · intro hn hpb
      simp [handleStreamLoop, h, hn, hpb]
    · intro hn
      simp [handleStreamLoop, h, hn]

/-- Witness for C4 at a concrete single-document stream ending at EOF. -/
theorem c4_read_batch_return_contract_witness :
    ((1 : Nat) =
      [(⟨demoBase.labels, demoBase.numericLabels, String.mk goodBody1⟩ : APMEvent)].length -
        ([] : Batch).length) ∧
    (⟨[], goodBody1, true⟩ : StreamReader).isEof = true ∧
    handleStreamLoop demoDecode demoPB demoBase 10 1 (readerOf [demoItem goodBody1])
        emptyResult =
      some (emptyResult.addAccepted 1, none) :=
  ⟨(c4_read_batch_return_contract.1 demoDecode demoBase 10 [] (readerOf [demoItem goodBody1])
      ⟨[], goodBody1, true⟩ emptyResult ⟨0, []⟩
      [⟨demoBase.labels, demoBase.numericLabels, String.mk goodBody1⟩] 1 (some Err.eof)
      (by decide)).1,
   (c4_read_batch_return_contract.1 demoDecode demoBase 10 [] (readerOf [demoItem goodBody1])
      ⟨[], goodBody1, true⟩ emptyResult ⟨0, []⟩
      [⟨demoBase.labels, demoBase.numericLabels, String.mk goodBody1⟩] 1 (some Err.eof)
      (by decide)).2.2.1 rfl,
   ((c4_read_batch_return_contract.2 demoDecode demoPB demoBase 10 0
      (readerOf [demoItem goodBody1]) ⟨[], goodBody1, true⟩ emptyResult ⟨0, []⟩
      [⟨demoBase.labels, demoBase.numericLabels, String.mk goodBody1⟩] 1
      (by decide)).1 (by decide) rfl)⟩

/-- C7: an oversize line is wrapped by `wrapError` into an
`InvalidInputError` with `TooLarge` set and message "event exceeded the
permitted size." (both bare and wrapped in a `DecoderError`), and in a
concrete stream the oversize document is recorded as a per-document
error while a later valid document is still decoded and accepted, with
no terminal error. -/
theorem c7_oversize_recorded_not_terminal :
    (∀ latest, wrapError latest .lineTooLong =
        .invalidInput true "event exceeded the permitted size." latest)
    ∧ (∀ latest, wrapError latest (.decoderErr .lineTooLong) =
        .invalidInput true "event exceeded the permitted size." latest)
    ∧ handleStream demoMeta demoDecode demoPB demoBase
        (readerOf [⟨oversizedPart, some .lineTooLong, false⟩, demoItem goodBody1])
        10 10 emptyResult =
      some (⟨1, [.invalidInput true "event exceeded the permitted size." oversizedPart]⟩,
        none) := by
  refine ⟨fun latest => rfl, fun latest => rfl, by decide⟩

/-- C8: `copyEvent` yields an event identical in every field other than
the label maps, with `Labels`/`NumericLabels` replaced by independent
clones of equal content (nil maps staying nil), leaving the base
event's stored maps unchanged; two copies made from the same base (as
the batch loop makes one per iteration) hold distinct references, so a
label mutation through one copy's reference cannot appear in the
other's map. -/
theorem c8_copy_event_label_isolation (e : APMEventH) (h : Heap) (hwf : h.wf e) :
    ((copyEventH e h).1.rest = e.rest)
    ∧ (e.labels = none → (copyEventH e h).1.labels = none)
    ∧ (e.numericLabels = none → (copyEventH e h).1.numericLabels = none)
    ∧ (∀ r, e.labels = some r → ∃ r', (copyEventH e h).1.labels = some r' ∧
        (copyEventH e h).2.lmem r' = h.lmem r ∧ r' ≠ r)
    ∧ (∀ r, e.numericLabels = some r → ∃ r', (copyEventH e h).1.numericLabels = some r' ∧
        (copyEventH e h).2.nmem r' = h.nmem r ∧ r' ≠ r)
    ∧ (∀ i, i < h.nextL → (copyEventH e h).2.lmem i = h.lmem i)
    ∧ (∀ i, i < h.nextN → (copyEventH e h).2.nmem i = h.nmem i)
    ∧ (∀ r r1 r2, e.labels = some r →
        (copyEventH e h).1.labels = some r1 →
        (copyEventH e ((copyEventH e h).2)).1.labels = some r2 →
        r1 ≠ r2 ∧ ∀ v, ((copyEventH e ((copyEventH e h).2)).2.setL r1 v).lmem r2 =
          (copyEventH e ((copyEventH e h).2)).2.lmem r2) := by
  obtain ⟨hL, hN⟩ := hwf
  rcases e with ⟨el, en, er⟩
  rcases el with _ | r0 <;> rcases en with _ | rn0
  · refine ⟨rfl, fun _ => rfl, fun _ => rfl, ?_, ?_, ?_, ?_, ?_⟩
    · intro r hr; simp at hr
    · intro r hr; simp at hr
    · intro i _; rfl
    · intro i _; rfl
    · intro r r1 r2 hr; simp at hr
  · refine ⟨rfl, fun _ => rfl, ?_, ?_, ?_, ?_, ?_, ?_⟩
    · intro hn; simp at hn
    · intro r hr; simp at hr
    · intro r hr
      simp only [Option.some_inj] at hr
      subst hr
      refine ⟨h.nextN, by simp [copyEventH, Heap.allocN], ?_, ?_⟩
      · simp [copyEventH, Heap.allocN]
      · have := hN rn0 rfl
        omega
    · intro i hi; rfl
    · intro i hi
      have hne : i ≠ h.nextN := by omega
      simp [copyEventH, Heap.allocN, hne]
    · intro r r1 r2 hr; simp at hr
  · refine ⟨rfl, ?_, fun _ => rfl, ?_, ?_, ?_, ?_, ?_⟩
    · intro hn; simp at hn
    · intro r hr
      simp only [Option.some_inj] at hr
      subst hr
      refine ⟨h.nextL, by simp [copyEventH, Heap.allocL], ?_, ?_⟩
      · simp [copyEventH, Heap.allocL]
      · have := hL r0 rfl
        omega
    · intro r hr; simp at hr
    · intro i hi
      have hne : i ≠ h.nextL := by omega
      simp [copyEventH, Heap.allocL, hne]
    · intro i hi; rfl
    · intro r r1 r2 hr h1 h2
      simp only [copyEventH, Heap.allocL, Option.some_inj] at h1 h2
      subst h1
      subst h2
      refine ⟨by omega, ?_⟩
      intro v
      simp [Heap.setL, copyEventH, Heap.allocL]
  · refine ⟨rfl, ?_, ?_, ?_, ?_, ?_, ?_, ?_⟩
    · intro hn; simp at hn
    · intro hn; simp at hn
    · intro r hr
      simp only [Option.some_inj] at hr
      subst hr
      refine ⟨h.nextL, by simp [copyEventH, Heap.allocL, Heap.allocN], ?_, ?_⟩
      · simp [copyEventH, Heap.allocL, Heap.allocN]
      · have := hL r0 rfl
        omega
    · intro r hr
      simp only [Option.some_inj] at hr
      subst hr
      refine ⟨h.nextN, by simp [copyEventH, Heap.allocL, Heap.allocN], ?_, ?_⟩
      · simp [copyEventH, Heap.allocL, Heap.allocN]
      · have := hN rn0 rfl
        omega
    · intro i hi
      have hne : i ≠ h.nextL := by omega
      simp [copyEventH, Heap.allocL, Heap.allocN, hne]
    · intro i hi
      have hne : i ≠ h.nextN := by omega
      simp [copyEventH, Heap.allocL, Heap.allocN, hne]
    · intro r r1 r2 hr h1 h2
      simp only [copyEventH, Heap.allocL, Heap.allocN, Option.some_inj] at h1 h2
      subst h1
      subst h2
      refine ⟨by omega, ?_⟩
      intro v
      simp [Heap.setL, copyEventH, Heap.allocL, Heap.allocN]

/-- Witness for C8 at a concrete heap and event. -/
theorem c8_copy_event_label_isolation_witness :
    ∃ r', (copyEventH demoEventH demoHeap).1.labels = some r' ∧
      (copyEventH demoEventH demoHeap).2.lmem r' = demoHeap.lmem 0 ∧ r' ≠ 0 :=
  (c8_copy_event_label_isolation demoEventH demoHeap
    ⟨fun r hr => by simp [demoEventH] at hr; simp [demoHeap]; omega,
     fun r hr => by simp [demoEventH] at hr⟩).2.2.2.1 0 rfl

/-- Replacing one list element exchanges its contribution to `countP`. -/
theorem countP_set (p : Phase → Bool) :
    ∀ (ts : List Phase) (i : Nat) (old new : Phase),
      ts.get? i = some old →
      (ts.set i new).countP p + (if p old then 1 else 0) =
        ts.countP p + (if p new then 1 else 0) := by
  intro ts
  induction ts with
  | nil => intro i old new h; simp at h
  | cons a t ih =>
    intro i old new h
    cases i with
    | zero =>
      simp only [List.get?] at h
      rw [Option.some_inj] at h
      subst h
      simp [List.set, List.countP_cons]
      omega
    | succ j =>
      simp only [List.get?] at h
      simp only [List.set, List.countP_cons]
      have := ih j old new h
      omega

/-- Reading back the element just replaced. -/
theorem get?_set_self :
    ∀ (ts : List Phase) (i : Nat) (old new : Phase),
      ts.get? i = some old → (ts.set i new).get? i = some new := by
  intro ts
  induction ts with
  | nil => intro i old new h; simp at h
  | cons a t ih =>
    intro i old new h
    cases i with
    | zero => rfl
    | succ j =>
      simp only [List.get?] at h ⊢
      exact ih j old new h

/-- Initially no invocation holds a slot. -/
theorem holdingCount_replicate_idle (n : Nat) :
    holdingCount (List.replicate n Phase.idle) = 0 := by
  induction n with
  | zero => rfl
  | succ m ih =>
    simp only [List.replicate, holdingCount, List.countP_cons] at ih ⊢
    simp [ih]

/-- Every admission-protocol step preserves the slot bound. -/
theorem semStep_holding (cap : Nat) (ts ts' : List Phase) (h : SemStep cap ts ts')
    (hle : holdingCount ts ≤ cap) : holdingCount ts' ≤ cap := by
  cases h with
  | enter i hi =>
    have := countP_set (· = Phase.holding) ts i .idle .waiting hi
    unfold holdingCount at hle ⊢
    simp at this
    omega
  | acquire i hi hfree =>
    have := countP_set (· = Phase.holding) ts i .waiting .holding hi
    unfold holdingCount at hle hfree ⊢
    simp at this
    omega
  | cancel i hi =>
    have := countP_set (· = Phase.holding) ts i .waiting .cancelled hi
    unfold holdingCount at hle ⊢
    simp at this
    omega
  | release i hi =>
    have := countP_set (· = Phase.holding) ts i .holding .released hi
    unfold holdingCount at hle ⊢
    simp at this
    omega

/-- C9: under arbitrary interleavings of the admission protocol with
semaphore capacity `cap`, starting from any number of idle invocations,
at most `cap` invocations are ever simultaneously between successful
admission and release (first conjunct); an invocation whose context
fires while it is waiting steps to `cancelled` without ever holding a
slot and without changing the number of held slots (second
conjunct). -/
theorem c9_admission_bound (cap : Nat) :
    (∀ (n : Nat) (ts : List Phase),
        SemReachable cap (List.replicate n Phase.idle) ts → holdingCount ts ≤ cap)
    ∧ (∀ (ts : List Phase) (i : Nat), ts.get? i = some Phase.waiting →
        SemStep cap ts (ts.set i Phase.cancelled) ∧
        (ts.set i Phase.cancelled).get? i = some Phase.cancelled ∧
        holdingCount (ts.set i Phase.cancelled) = holdingCount ts) := by
  constructor
  · intro n ts h
    induction h with
    | refl => rw [holdingCount_replicate_idle]; omega
    | tail hsteps hstep ih => exact semStep_holding cap _ _ hstep ih
  · intro ts i hi
    refine ⟨SemStep.cancel ts i hi, get?_set_self ts i _ _ hi, ?_⟩
    have := countP_set (· = Phase.holding) ts i .waiting .cancelled hi
    unfold holdingCount
    simp at this
    omega

/-- Witness for C9: two invocations against capacity 1, one having
been admitted and one still waiting, reached by explicit protocol
steps. -/
theorem c9_admission_bound_witness :
    holdingCount [Phase.holding, Phase.waiting] ≤ 1 :=
  (c9_admission_bound 1).1 2 [Phase.holding, Phase.waiting]
    (Relation.ReflTransGen.tail
      (Relation.ReflTransGen.tail
        (Relation.ReflTransGen.tail Relation.ReflTransGen.refl
          (SemStep.enter (List.replicate 2 Phase.idle) 0 rfl))
        (SemStep.acquire [Phase.waiting, Phase.idle] 0 rfl (by decide)))
      (SemStep.enter [Phase.holding, Phase.idle] 1 rfl))

end APMStream
